import Mathlib

/-!
Shallow embedding of `lingvo/core/bn_layers.py` (batch/group normalization
layers) and verification of its specification claims.

Tensors are modelled over ℚ (exact arithmetic; the floating-point claims in
the spec are all algebraic identities, stated here exactly).  A reduction
producing one output element ("a reduction slice") is modelled directly: the
input elements of the slice are grouped by the mask element that covers them
under broadcasting, so a slice is `xss : List (List ℚ)` (one inner list per
mask position, inner lists are the input elements sharing that mask value)
together with the padding values `ps : List ℚ` (one per mask position).  When
the mask is not broadcast every inner list is a singleton.  The square root
used by `tf.nn.batch_normalization` is irrational over ℚ and is passed as an
explicit function argument; no claim depends on its value.
-/

namespace BnLayers

/-! ## Masked moment estimator: `ComputeMomentsWithPadding` (bn_layers.py lines 51-91) -/

/-- Line 57: `mask = 1.0 - padding`, one value per mask position. -/
def maskOf (ps : List ℚ) : List ℚ := ps.map (fun p => 1 - p)

/-- Lines 62-63: `sum_v = reduce_sum(inputs * mask)` over the reduction slice;
each mask value multiplies every input element it is broadcast against. -/
def sumV (xss : List (List ℚ)) (ps : List ℚ) : ℚ :=
  (List.zipWith (fun m xs => m * xs.sum) (maskOf ps) xss).sum

/-- Line 64: `count_v = reduce_sum(mask)` — the mask is summed over its own
(possibly smaller, broadcast) extent. -/
def countRaw (ps : List ℚ) : ℚ := (maskOf ps).sum

/-- Lines 67-68: number of input elements of the slice
(`reduce_prod(gather(shape(inputs), reduce_over_dims))`, per slice). -/
def inputSize (xss : List (List ℚ)) : ℕ := (xss.map List.length).sum

/-- Lines 69-70: number of mask elements of the slice. -/
def maskSize (ps : List ℚ) : ℕ := ps.length

/-- Lines 71-72: `mask_multiplier = truediv(input_size, mask_size)`. -/
def maskMultiplier (xss : List (List ℚ)) (ps : List ℚ) : ℚ :=
  (inputSize xss : ℚ) / (maskSize ps : ℚ)

/-- Line 73: `count_v *= mask_multiplier`. -/
def countV (xss : List (List ℚ)) (ps : List ℚ) : ℚ :=
  countRaw ps * maskMultiplier xss ps

/-- Line 78: `count_v = maximum(count_v, 1.0)` — the divisor used for both
mean and variance. -/
def flooredCount (xss : List (List ℚ)) (ps : List ℚ) : ℚ :=
  max (countV xss ps) 1

/-- Line 79: `mean = sum_v / count_v`. -/
def meanWithPadding (xss : List (List ℚ)) (ps : List ℚ) : ℚ :=
  sumV xss ps / flooredCount xss ps

/-- Lines 80-83: `sum_vv = reduce_sum((inputs - mean) * (inputs - mean) * mask)`. -/
def sumVV (xss : List (List ℚ)) (ps : List ℚ) : ℚ :=
  (List.zipWith
    (fun m xs => m * (xs.map (fun x => (x - meanWithPadding xss ps) ^ 2)).sum)
    (maskOf ps) xss).sum

/-- Lines 88-90: `variance = sum_vv / count_v`. -/
def varianceWithPadding (xss : List (List ℚ)) (ps : List ℚ) : ℚ :=
  sumVV xss ps / flooredCount xss ps

/-- Lines 51-91: `ComputeMomentsWithPadding` for one reduction slice, the
`(mean, variance)` pair.  The cross-replica branch (lines 74-76, 85-86) is the
single-replica identity here; the rank and nonnegativity assertions
(lines 58-61) are runtime checks that do not change the value. -/
def ComputeMomentsWithPadding (xss : List (List ℚ)) (ps : List ℚ) : ℚ × ℚ :=
  (meanWithPadding xss ps, varianceWithPadding xss ps)

/-! ## TensorFlow primitives used by the layers, per their documented semantics -/

/-- TensorFlow primitive `tf.nn.batch_normalization`:
`(x - mean) / sqrt(variance + epsilon) * gamma + beta`.  The square root is
abstracted as the explicit argument `sqrtFn`. -/
def batchNormalization (sqrtFn : ℚ → ℚ) (x mean variance beta gamma eps : ℚ) : ℚ :=
  (x - mean) / sqrtFn (variance + eps) * gamma + beta

/-- Column `d` of a row-major tensor `[..., dim]` flattened to rows. -/
def columnGet (rows : List (List ℚ)) (d : ℕ) : List ℚ :=
  rows.map (fun r => r.getD d 0)

/-- TensorFlow primitive `tf.nn.sufficient_statistics` (shift `None`) over all
axes but the feature axis: `(count, per-feature sum, per-feature sum of
squares)`. -/
def sufficientStatistics (rows : List (List ℚ)) (dim : ℕ) : ℚ × List ℚ × List ℚ :=
  ((rows.length : ℚ),
   (List.range dim).map (fun d => (columnGet rows d).sum),
   (List.range dim).map (fun d => ((columnGet rows d).map (fun x => x * x)).sum))

/-- TensorFlow primitive `tf.nn.normalize_moments` (shift `None`):
`mean = mean_ss / counts`, `variance = variance_ss / counts - mean * mean`,
per feature. -/
def normalizeMoments (counts : ℚ) (meanSS varianceSS : List ℚ) : List ℚ × List ℚ :=
  (meanSS.map (fun s => s / counts),
   List.zipWith (fun vs s => vs / counts - (s / counts) * (s / counts)) varianceSS meanSS)

/-- Train/eval mode tag (`self.do_eval` in the source). -/
inductive Mode where
  | train : Mode
  | eval : Mode
deriving DecidableEq

/-! ## `BatchNormLayer` (padded batch norm, lines 94-355) -/

/-- Static configuration of `BatchNormLayer` relevant to its computation. -/
structure BNParams where
  dim : ℕ
  decay : ℚ
  useMovingAvgInTraining : Bool
  setPaddedOutputToZero : Bool

/-- Learned affine parameters `(beta, gamma)`; `gamma` is the effective scale
(the variable is created as `1 + raw` at line 162). -/
structure BNTheta where
  beta : List ℚ
  gamma : List ℚ

/-- Persistent per-feature moving statistics. -/
structure BNState where
  movingMean : List ℚ
  movingVariance : List ℚ

/-- Line 198: `self._epsilon = 0.001`. -/
def bnEpsilon : ℚ := 1 / 1000

/-- Modelled from the spec: `py_utils.UpdateBatchNormVars` is not under `src/`
(it lives in `py_utils.py`); the spec gives its rule as
`moving = moving - (moving - batch) * (1 - decay)`, applied per feature. -/
def UpdateBatchNormVars (moving batch : List ℚ) (decay : ℚ) : List ℚ :=
  List.zipWith (fun mv b => mv - (mv - b) * (1 - decay)) moving batch

/-- Lines 251-255: batch moments of a `[rows, dim]` input with per-row padding
`[rows, 1]`, reduced over all axes but the feature axis.  Per feature `d` the
reduction slice is column `d` (singleton mask groups: the mask multiplier at
lines 67-73 is `rows/rows = 1`). -/
def batchMomentVectors (rows : List (List ℚ)) (ps : List ℚ) (dim : ℕ) :
    List ℚ × List ℚ :=
  ((List.range dim).map (fun d =>
      (ComputeMomentsWithPadding ((columnGet rows d).map (fun x => [x])) ps).1),
   (List.range dim).map (fun d =>
      (ComputeMomentsWithPadding ((columnGet rows d).map (fun x => [x])) ps).2))

/-- Lines 226-301: `ComputeAndUpdateMoments`.  Returns
`((norm_mean, norm_variance, beta, gamma), new state)`.  In eval mode the
moving statistics are read verbatim and nothing is mutated; in train mode the
batch moments are computed (lines 251-255), the moving statistics updated
(lines 257-259), and either the (updated, per the ordering contract of the
spec) moving statistics (`use_moving_avg_in_training`, lines 278-284) or the
batch moments (lines 285-288) are returned for normalization. -/
def ComputeAndUpdateMoments (p : BNParams) (mode : Mode) (theta : BNTheta)
    (st : BNState) (rows : List (List ℚ)) (ps : List ℚ) :
    (List ℚ × List ℚ × List ℚ × List ℚ) × BNState :=
  match mode with
  | Mode.eval =>
      ((st.movingMean, st.movingVariance,
        if p.useMovingAvgInTraining then List.replicate p.dim 0 else theta.beta,
        if p.useMovingAvgInTraining then List.replicate p.dim 1 else theta.gamma), st)
  | Mode.train =>
      let bm := batchMomentVectors rows ps p.dim
      let st2 : BNState :=
        { movingMean := UpdateBatchNormVars st.movingMean bm.1 p.decay,
          movingVariance := UpdateBatchNormVars st.movingVariance bm.2 p.decay }
      let nm := if p.useMovingAvgInTraining then st2.movingMean else bm.1
      let nv := if p.useMovingAvgInTraining then st2.movingVariance else bm.2
      ((nm, nv,
        if p.useMovingAvgInTraining then List.replicate p.dim 0 else theta.beta,
        if p.useMovingAvgInTraining then List.replicate p.dim 1 else theta.gamma), st2)

/-- Lines 303-348: `BatchNormLayer.FProp`.  Normalizes each position with the
per-feature statistics from `ComputeAndUpdateMoments` and, when
`set_padded_output_to_zero`, multiplies the output elementwise by
`1 - padding` (lines 345-346).  The fused eval path (lines 331-339) computes
the same normalization and is omitted. -/
def BatchNormLayerFProp (sqrtFn : ℚ → ℚ) (p : BNParams) (mode : Mode)
    (theta : BNTheta) (st : BNState) (rows : List (List ℚ)) (ps : List ℚ) :
    List (List ℚ) × BNState :=
  let r := ComputeAndUpdateMoments p mode theta st rows ps
  let nm := r.1.1
  let nv := r.1.2.1
  let beta := r.1.2.2.1
  let gamma := r.1.2.2.2
  (List.zipWith (fun row pad =>
      let normed := (List.range p.dim).map (fun d =>
        batchNormalization sqrtFn (row.getD d 0) (nm.getD d 0) (nv.getD d 0)
          (beta.getD d 0) (gamma.getD d 0) bnEpsilon)
      if p.setPaddedOutputToZero then normed.map (fun y => y * (1 - pad))
      else normed)
    rows ps,
   r.2)

/-! ## `BatchNormLayerNoPadding` (lines 358-542) -/

/-- Static configuration of `BatchNormLayerNoPadding`. -/
structure BNNPParams where
  dim : ℕ
  decay : ℚ
  epsilon : ℚ
  bnGroupSize : ℕ

/-- State of `BatchNormLayerNoPadding`: moving statistics plus the
sufficient-statistics accumulators `counts`, `mean_ss`, `variance_ss`
(lines 418-422), each an `AddingAccumulator`. -/
structure BNNPState where
  movingMean : List ℚ
  movingVariance : List ℚ
  accCounts : ℚ
  accMeanSS : List ℚ
  accVarianceSS : List ℚ

/-- Lines 424-461: `PostTrainingStepUpdate`.  Batch mean/variance are derived
from the accumulated sufficient statistics via `tf.nn.normalize_moments`
(line 432); with `decay := 1 - p.decay` (line 433), `assign_sub` subtracts
`(moving - batch) * decay` where `counts > 0.5` and zero elsewhere
(lines 437-451); the accumulators are reset to their zero defaults
(lines 458-460). -/
def PostTrainingStepUpdate (p : BNNPParams) (st : BNNPState) : BNNPState :=
  let mv := normalizeMoments st.accCounts st.accMeanSS st.accVarianceSS
  { movingMean :=
      if 1 / 2 < st.accCounts then
        List.zipWith (fun m b => m - (m - b) * (1 - p.decay)) st.movingMean mv.1
      else st.movingMean,
    movingVariance :=
      if 1 / 2 < st.accCounts then
        List.zipWith (fun m b => m - (m - b) * (1 - p.decay)) st.movingVariance mv.2
      else st.movingVariance,
    accCounts := 0,
    accMeanSS := List.replicate p.dim 0,
    accVarianceSS := List.replicate p.dim 0 }

/-- Failure cases raised by `_Moments` when building the replica groups
(lines 477-483). -/
inductive GroupError where
  | shardsLessThanGroupSize : GroupError
  | shardsNotDivisibleByGroupSize : GroupError
deriving DecidableEq

/-- Lines 476-488 of `_Moments`: validation of `num_shards` against
`group_size` and construction of the `group_assignment` — `num_groups`
contiguous lists `[g*group_size + i for i in range(group_size)]`. -/
def groupAssignment (numShards groupSize : ℕ) : Except GroupError (List (List ℕ)) :=
  if numShards < groupSize then
    Except.error GroupError.shardsLessThanGroupSize
  else if numShards % groupSize ≠ 0 then
    Except.error GroupError.shardsNotDivisibleByGroupSize
  else
    Except.ok ((List.range (numShards / groupSize)).map (fun g =>
      (List.range groupSize).map (fun i => g * groupSize + i)))

/-- Lines 463-496: `_Moments` without the cross-replica branch (single
replica): computes the per-call sufficient statistics, accumulates them, and
derives this call's `(mean, variance)` from the per-call (not accumulated)
statistics.  Returns the moment vectors and the new state. -/
def BNNPMoments (p : BNNPParams) (st : BNNPState) (rows : List (List ℚ)) :
    (List ℚ × List ℚ) × BNNPState :=
  let s := sufficientStatistics rows p.dim
  let st2 : BNNPState :=
    { st with
      accCounts := st.accCounts + s.1,
      accMeanSS := List.zipWith (fun a b => a + b) st.accMeanSS s.2.1,
      accVarianceSS := List.zipWith (fun a b => a + b) st.accVarianceSS s.2.2 }
  (normalizeMoments s.1 s.2.1 s.2.2, st2)

/-- Lines 498-534: `BatchNormLayerNoPadding.FProp`.  Eval mode normalizes with
the moving statistics and touches no state (lines 521-524); train mode runs
`_Moments` (accumulating sufficient statistics) and normalizes with this
call's batch moments (lines 525-532). -/
def BNNPFProp (sqrtFn : ℚ → ℚ) (p : BNNPParams) (mode : Mode) (theta : BNTheta)
    (st : BNNPState) (rows : List (List ℚ)) : List (List ℚ) × BNNPState :=
  match mode with
  | Mode.eval =>
      (rows.map (fun row => (List.range p.dim).map (fun d =>
        batchNormalization sqrtFn (row.getD d 0) (st.movingMean.getD d 0)
          (st.movingVariance.getD d 0) (theta.beta.getD d 0) (theta.gamma.getD d 0)
          p.epsilon)), st)
  | Mode.train =>
      let r := BNNPMoments p st rows
      (rows.map (fun row => (List.range p.dim).map (fun d =>
        batchNormalization sqrtFn (row.getD d 0) (r.1.1.getD d 0)
          (r.1.2.getD d 0) (theta.beta.getD d 0) (theta.gamma.getD d 0)
          p.epsilon)), r.2)

/-! ## `GroupNormLayer` partition rule (lines 600-607) -/

/-- Lines 602-607 of `GroupNormLayer.FProp`: derive `(num_groups, group_size)`
from `dim`, `num_groups`, `min_group_size`:
`group_size = dim // num_groups`; the minimum is capped at `dim`; when
`group_size <= min_group_size` the group size is raised to the capped minimum
and the group count recomputed as `dim // group_size`. -/
def groupPartition (dim numGroups minGroupSize : ℕ) : ℕ × ℕ :=
  let groupSize := dim / numGroups
  let mgs := if minGroupSize < dim then minGroupSize else dim
  if groupSize ≤ mgs then (dim / mgs, mgs) else (numGroups, groupSize)

/-! ## Spec-side definitions (refinement targets, from the spec's words) -/

/-- Unweighted mean of a slice, per the spec's testable property 1. -/
def unweightedMean (xs : List ℚ) : ℚ := xs.sum / xs.length

/-- Unweighted (population) variance of a slice, per the spec's testable
property 1. -/
def unweightedVariance (xs : List ℚ) : ℚ :=
  ((xs.map (fun x => (x - unweightedMean xs) ^ 2)).sum) / xs.length

/-- Number of input elements of a slice whose covering mask position is valid
(padding 0), per the spec's broadcasting-count property. -/
def validElementCount (xss : List (List ℚ)) (ps : List ℚ) : ℕ :=
  (List.zipWith (fun p xs => if p = 0 then xs.length else 0) ps xss).sum

/-! ## Helper lemmas -/

theorem zipWith_ext {α β γ : Type} (f g : α → β → γ) (h : ∀ a b, f a b = g a b)
    (la : List α) (lb : List β) : List.zipWith f la lb = List.zipWith g la lb := by
  have hfg : f = g := funext fun a => funext fun b => h a b
  rw [hfg]

/-- Common shape of the two weighted sums of the estimator (`sum_v` with
`g = id`, `sum_vv` with `g` the squared deviation), introduced so both can be
handled by one induction. -/
def weightedSliceSum (g : ℚ → ℚ) (xss : List (List ℚ)) (ps : List ℚ) : ℚ :=
  (List.zipWith (fun m xs => m * (xs.map g).sum) (maskOf ps) xss).sum

theorem sumV_eq_weighted (xss : List (List ℚ)) (ps : List ℚ) :
    sumV xss ps = weightedSliceSum id xss ps := by
  unfold sumV weightedSliceSum
  congr 1
  exact zipWith_ext _ _ (fun m xs => by rw [List.map_id]) _ _

theorem sumVV_eq_weighted (xss : List (List ℚ)) (ps : List ℚ) :
    sumVV xss ps =
      weightedSliceSum (fun x => (x - meanWithPadding xss ps) ^ 2) xss ps := rfl

theorem weightedSliceSum_all_padded (g : ℚ → ℚ) (xss : List (List ℚ))
    (ps : List ℚ) (h1 : ∀ p ∈ ps, p = 1) : weightedSliceSum g xss ps = 0 := by
  induction ps generalizing xss with
  | nil => cases xss <;> simp [weightedSliceSum, maskOf]
  | cons p ps ih =>
      cases xss with
      | nil => simp [weightedSliceSum, maskOf]
      | cons xs xss =>
          have hp : p = 1 := h1 p (List.mem_cons_self p ps)
          have ih2 := ih xss (fun q hq => h1 q (List.mem_cons_of_mem p hq))
          simp only [weightedSliceSum, maskOf, List.map_cons,
            List.zipWith_cons_cons, List.sum_cons] at ih2 ⊢
          rw [ih2, hp]
          ring

theorem weightedSliceSum_all_valid (g : ℚ → ℚ) (xss : List (List ℚ))
    (ps : List ℚ) (hlen : ps.length = xss.length) (h0 : ∀ p ∈ ps, p = 0) :
    weightedSliceSum g xss ps = (xss.flatten.map g).sum := by
  induction ps generalizing xss with
  | nil =>
      cases xss with
      | nil => simp [weightedSliceSum, maskOf]
      | cons xs xss => simp at hlen
  | cons p ps ih =>
      cases xss with
      | nil => simp at hlen
      | cons xs xss =>
          have hp : p = 0 := h0 p (List.mem_cons_self p ps)
          have ih2 := ih xss (by simpa using hlen)
            (fun q hq => h0 q (List.mem_cons_of_mem p hq))
          simp only [weightedSliceSum, maskOf, List.map_cons,
            List.zipWith_cons_cons, List.sum_cons, List.flatten_cons,
            List.map_append, List.sum_append] at ih2 ⊢
          rw [ih2, hp]
          ring

theorem countRaw_all_valid (ps : List ℚ) (h0 : ∀ p ∈ ps, p = 0) :
    countRaw ps = (ps.length : ℚ) := by
  induction ps with
  | nil => simp [countRaw, maskOf]
  | cons p ps ih =>
      have hp : p = 0 := h0 p (List.mem_cons_self p ps)
      have ih2 := ih (fun q hq => h0 q (List.mem_cons_of_mem p hq))
      simp only [countRaw, maskOf, List.map_cons, List.sum_cons,
        List.length_cons] at ih2 ⊢
      rw [ih2, hp]
      push_cast
      ring

theorem countRaw_all_padded (ps : List ℚ) (h1 : ∀ p ∈ ps, p = 1) :
    countRaw ps = 0 := by
  induction ps with
  | nil => simp [countRaw, maskOf]
  | cons p ps ih =>
      have hp : p = 1 := h1 p (List.mem_cons_self p ps)
      have ih2 := ih (fun q hq => h1 q (List.mem_cons_of_mem p hq))
      simp only [countRaw, maskOf, List.map_cons, List.sum_cons] at ih2 ⊢
      rw [ih2, hp]
      ring

theorem countRaw_cons (p : ℚ) (ps : List ℚ) :
    countRaw (p :: ps) = (1 - p) + countRaw ps := by
  simp only [countRaw, maskOf, List.map_cons, List.sum_cons]

theorem validElementCount_cons (p : ℚ) (ps : List ℚ) (xs : List ℚ)
    (xss : List (List ℚ)) :
    validElementCount (xs :: xss) (p :: ps) =
      (if p = 0 then xs.length else 0) + validElementCount xss ps := by
  simp only [validElementCount, List.zipWith_cons_cons, List.sum_cons]

theorem maskSum_mul_eq_validCount (ps : List ℚ) (xss : List (List ℚ)) (r : ℕ)
    (hlen : ps.length = xss.length) (hr : ∀ xs ∈ xss, xs.length = r)
    (hb : ∀ p ∈ ps, p = 0 ∨ p = 1) :
    countRaw ps * r = (validElementCount xss ps : ℚ) := by
  induction ps generalizing xss with
  | nil =>
      cases xss with
      | nil => simp [countRaw, maskOf, validElementCount]
      | cons xs xss => simp at hlen
  | cons p ps ih =>
      cases xss with
      | nil => simp at hlen
      | cons xs xss =>
          have hx : xs.length = r := hr xs (List.mem_cons_self xs xss)
          have hp := hb p (List.mem_cons_self p ps)
          have ih2 := ih xss (by simpa using hlen)
            (fun q hq => hr q (List.mem_cons_of_mem xs hq))
            (fun q hq => hb q (List.mem_cons_of_mem p hq))
          rw [countRaw_cons, validElementCount_cons]
          rcases hp with hp | hp
          · subst hp
            rw [if_pos rfl]
            push_cast
            rw [hx, ← ih2]
            ring
          · subst hp
            rw [if_neg (by norm_num)]
            push_cast
            rw [← ih2]
            ring

theorem inputSize_uniform (xss : List (List ℚ)) (r : ℕ)
    (hr : ∀ xs ∈ xss, xs.length = r) : inputSize xss = xss.length * r := by
  unfold inputSize
  have hrep : xss.map List.length = List.replicate xss.length r := by
    have := List.eq_replicate_of_mem (l := xss.map List.length) (a := r)
      (fun b hb => by
        rcases List.mem_map.mp hb with ⟨xs, hxs, rfl⟩
        exact hr xs hxs)
    simpa using this
  rw [hrep, List.sum_replicate, nsmul_eq_mul, Nat.cast_id]

/-! ## Claims -/

/-- C1: for every input slice and padding mask, the divisor used by
`ComputeMomentsWithPadding` for both mean and variance is the count floored at
1, hence at least 1 and never zero — even when every element of the slice is
padded — so the returned mean and variance are well-defined finite values. -/
theorem C1_count_floored_no_div_by_zero (xss : List (List ℚ)) (ps : List ℚ) :
    1 ≤ flooredCount xss ps ∧
    ComputeMomentsWithPadding xss ps =
      (sumV xss ps / flooredCount xss ps, sumVV xss ps / flooredCount xss ps) :=
  ⟨le_max_right _ _, rfl⟩

/-- C2: `PostTrainingStepUpdate` of the no-padding layer leaves `moving_mean`
and `moving_variance` exactly unchanged when the accumulated count is not
greater than 0.5, and otherwise decrements each moving statistic by
`(moving - batch) * (1 - decay)`, the batch mean and variance being derived
from the accumulated sufficient statistics
(`mean = mean_ss / counts`, `variance = variance_ss / counts - mean²`). -/
theorem C2_commit_guard_and_decay (p : BNNPParams) (st : BNNPState) :
    ((PostTrainingStepUpdate p st).movingMean =
      if 1 / 2 < st.accCounts then
        List.zipWith (fun m b => m - (m - b) * (1 - p.decay)) st.movingMean
          (st.accMeanSS.map (fun s => s / st.accCounts))
      else st.movingMean) ∧
    ((PostTrainingStepUpdate p st).movingVariance =
      if 1 / 2 < st.accCounts then
        List.zipWith (fun m b => m - (m - b) * (1 - p.decay)) st.movingVariance
          (List.zipWith
            (fun vs s => vs / st.accCounts - (s / st.accCounts) * (s / st.accCounts))
            st.accVarianceSS st.accMeanSS)
      else st.movingVariance) :=
  ⟨rfl, rfl⟩

/-- C3 counterexample: the configuration `dim = 6`, `num_groups = 3`,
`min_group_size = 4` satisfies the claim's hypotheses (`dim % num_groups = 0`,
positive minimum group size), yet `GroupNormLayer.FProp` derives
`num_groups = 1`, `group_size = 4` with `1 * 4 ≠ 6`. -/
theorem C3_partition_counterexample :
    6 % 3 = 0 ∧ 0 < 4 ∧
    (groupPartition 6 3 4).1 * (groupPartition 6 3 4).2 ≠ 6 := by decide

/-- C3 (amended): the derived partition satisfies
`num_groups * group_size = dim` provided additionally that the capped minimum
group size (`min_group_size`, capped at `dim`) divides `dim`. -/
theorem C3_partition_invariant (dim numGroups minGroupSize : ℕ)
    (hng : 0 < numGroups) (hmg : 0 < minGroupSize)
    (hdvd : numGroups ≤ dim → numGroups ∣ dim)
    (hmgs : (if minGroupSize < dim then minGroupSize else dim) ∣ dim) :
    (groupPartition dim numGroups minGroupSize).1 *
      (groupPartition dim numGroups minGroupSize).2 = dim := by
  unfold groupPartition
  by_cases hle : dim / numGroups ≤ (if minGroupSize < dim then minGroupSize else dim)
  · simp only [hle, if_true]
    exact Nat.div_mul_cancel hmgs
  · simp only [hle, if_false]
    have hpos : 0 < dim / numGroups := Nat.pos_of_ne_zero (by
      intro h0
      exact hle (h0 ▸ Nat.zero_le _))
    have hge : numGroups ≤ dim := by
      by_contra hlt
      rw [Nat.div_eq_of_lt (Nat.lt_of_not_le hlt)] at hpos
      exact Nat.lt_irrefl 0 hpos
    exact Nat.mul_div_cancel' (hdvd hge)

/-- C3 witness: the amended invariant holds at `dim = 8`, `num_groups = 4`,
`min_group_size = 2`. -/
theorem C3_partition_invariant_witness :
    0 < 4 ∧ 0 < 2 ∧ (groupPartition 8 4 2).1 * (groupPartition 8 4 2).2 = 8 :=
  ⟨by decide, by decide,
   C3_partition_invariant 8 4 2 (by decide) (by decide) (fun _ => by decide)
     (by decide)⟩

/-- C4: every training-mode call of `ComputeAndUpdateMoments` of the padded
batch-norm layer updates each moving statistic by the exponential-decay rule
`moving := decay * moving + (1 - decay) * batch` (the form equivalent to
`moving - (moving - batch) * (1 - decay)`), where the batch moments are the
masked moments of this call's input — applied on each call, with no
accumulation across calls. -/
theorem C4_exponential_decay_update (p : BNParams) (theta : BNTheta)
    (st : BNState) (rows : List (List ℚ)) (ps : List ℚ) :
    ((ComputeAndUpdateMoments p Mode.train theta st rows ps).2.movingMean =
      List.zipWith (fun mv b => p.decay * mv + (1 - p.decay) * b)
        st.movingMean (batchMomentVectors rows ps p.dim).1) ∧
    ((ComputeAndUpdateMoments p Mode.train theta st rows ps).2.movingVariance =
      List.zipWith (fun mv b => p.decay * mv + (1 - p.decay) * b)
        st.movingVariance (batchMomentVectors rows ps p.dim).2) := by
  constructor
  · show UpdateBatchNormVars st.movingMean (batchMomentVectors rows ps p.dim).1
        p.decay = _
    unfold UpdateBatchNormVars
    exact zipWith_ext _ _ (fun a b => by ring) _ _
  · show UpdateBatchNormVars st.movingVariance (batchMomentVectors rows ps p.dim).2
        p.decay = _
    unfold UpdateBatchNormVars
    exact zipWith_ext _ _ (fun a b => by ring) _ _

/-- C8: in evaluation mode the apply operations of both batch-norm layers are
pure: they leave the layer state (moving statistics and, for the no-padding
layer, the accumulators) exactly unchanged, and a second call from the
returned state with the same input produces the identical output. -/
theorem C8_eval_pure_no_mutation (sqrtFn : ℚ → ℚ) (p : BNParams)
    (theta : BNTheta) (st : BNState) (rows : List (List ℚ)) (ps : List ℚ)
    (pnp : BNNPParams) (stnp : BNNPState) :
    ((BatchNormLayerFProp sqrtFn p Mode.eval theta st rows ps).2 = st) ∧
    ((BatchNormLayerFProp sqrtFn p Mode.eval theta
        (BatchNormLayerFProp sqrtFn p Mode.eval theta st rows ps).2 rows ps).1 =
      (BatchNormLayerFProp sqrtFn p Mode.eval theta st rows ps).1) ∧
    ((BNNPFProp sqrtFn pnp Mode.eval theta stnp rows).2 = stnp) ∧
    ((BNNPFProp sqrtFn pnp Mode.eval theta
        (BNNPFProp sqrtFn pnp Mode.eval theta stnp rows).2 rows).1 =
      (BNNPFProp sqrtFn pnp Mode.eval theta stnp rows).1) :=
  ⟨rfl, rfl, rfl, rfl⟩

theorem flatten_contiguous_blocks (gs : ℕ) :
    ∀ k : ℕ, ((List.range k).map (fun g =>
      (List.range gs).map (fun i => g * gs + i))).flatten = List.range (k * gs) := by
  intro k
  induction k with
  | zero => simp
  | succ n ih =>
      rw [List.range_succ, List.map_append, List.flatten_append, ih,
        Nat.succ_mul, List.range_add]
      simp

/-- C7: with grouped-replica pooling enabled (`bn_group_size > 1`, replica
count known), the group-assignment computation of
`BatchNormLayerNoPadding._Moments` fails if and only if the total replica
count is smaller than `bn_group_size` or not divisible by it; otherwise it
partitions the replica index space into `num_shards / bn_group_size`
contiguous groups of exactly `bn_group_size` members. -/
theorem C7_group_assignment (numShards groupSize : ℕ) (hgs : 1 < groupSize) :
    ((∃ e, groupAssignment numShards groupSize = Except.error e) ↔
      numShards < groupSize ∨ numShards % groupSize ≠ 0) ∧
    (∀ l, groupAssignment numShards groupSize = Except.ok l →
      l.length = numShards / groupSize ∧
      (∀ grp ∈ l, grp.length = groupSize) ∧
      l.flatten = List.range numShards) := by
  by_cases h1 : numShards < groupSize
  · refine ⟨⟨fun _ => Or.inl h1, fun _ => ⟨GroupError.shardsLessThanGroupSize, ?_⟩⟩,
      fun l hl => ?_⟩
    · unfold groupAssignment
      rw [if_pos h1]
    · unfold groupAssignment at hl
      rw [if_pos h1] at hl
      cases hl
  · by_cases h2 : numShards % groupSize ≠ 0
    · refine ⟨⟨fun _ => Or.inr h2,
        fun _ => ⟨GroupError.shardsNotDivisibleByGroupSize, ?_⟩⟩, fun l hl => ?_⟩
      · unfold groupAssignment
        rw [if_neg h1, if_pos h2]
      · unfold groupAssignment at hl
        rw [if_neg h1, if_pos h2] at hl
        cases hl
    · have hok : groupAssignment numShards groupSize =
          Except.ok ((List.range (numShards / groupSize)).map (fun g =>
            (List.range groupSize).map (fun i => g * groupSize + i))) := by
        unfold groupAssignment
        rw [if_neg h1, if_neg h2]
      refine ⟨⟨fun he => ?_, fun h => ?_⟩, fun l hl => ?_⟩
      · rcases he with ⟨e, he⟩
        rw [hok] at he
        cases he
      · rcases h with h | h
        · exact absurd h h1
        · exact absurd h h2
      · rw [hok] at hl
        have hll := Except.ok.inj hl
        subst hll
        refine ⟨by simp, fun grp hgrp => ?_, ?_⟩
        · rcases List.mem_map.mp hgrp with ⟨g, _, rfl⟩
          simp
        · rw [flatten_contiguous_blocks, Nat.div_mul_cancel
            (Nat.dvd_of_mod_eq_zero (Decidable.not_not.mp h2))]

/-- C7 witness: 4 replicas with `bn_group_size = 2` succeed and are
partitioned into the contiguous groups of the first conjunct's negation. -/
theorem C7_group_assignment_witness :
    1 < 2 ∧
    (((∃ e, groupAssignment 4 2 = Except.error e) ↔ 4 < 2 ∨ 4 % 2 ≠ 0) ∧
     (∀ l, groupAssignment 4 2 = Except.ok l →
       l.length = 4 / 2 ∧ (∀ grp ∈ l, grp.length = 2) ∧
       l.flatten = List.range 4)) :=
  ⟨by decide, C7_group_assignment 4 2 (by decide)⟩

/-- C9: for the padded batch-norm layer with `set_padded_output_to_zero`
enabled, every output row whose padding value is 1 is exactly zero in the
result of `FProp`, for every input, mode, square-root interpretation, and
parameter state. -/
theorem C9_padded_output_zero (sqrtFn : ℚ → ℚ) (p : BNParams)
    (hset : p.setPaddedOutputToZero = true) (mode : Mode) (theta : BNTheta)
    (st : BNState) (rows : List (List ℚ)) (ps : List ℚ) (i : ℕ)
    (hi : i < rows.length) (hps : i < ps.length) (hpad : ps.getD i 0 = 1) :
    ∀ y ∈ (BatchNormLayerFProp sqrtFn p mode theta st rows ps).1.getD i [],
      y = 0 := by
  intro y hy
  unfold BatchNormLayerFProp at hy
  simp only at hy
  rw [List.getD_eq_getElem _ _ (by
        rw [List.length_zipWith]
        exact lt_min hi hps),
      List.getElem_zipWith] at hy
  rw [List.getD_eq_getElem _ _ hps] at hpad
  rw [hpad, hset] at hy
  simp only [if_true, sub_self, mul_zero, List.mem_map] at hy
  rcases hy with ⟨x, _, rfl⟩
  rfl

/-- C9 witness: a concrete two-row input whose second row is padded produces
an all-zero second output row. -/
theorem C9_padded_output_zero_witness :
    (true : Bool) = true ∧ 1 < 2 ∧ 1 < 2 ∧ ([(0 : ℚ), 1].getD 1 0 = 1) ∧
    ∀ y ∈ (BatchNormLayerFProp (fun _ => 1) ⟨2, 9 / 10, false, true⟩ Mode.train
        ⟨[0, 0], [1, 1]⟩ ⟨[0, 0], [1, 1]⟩ [[1, 2], [3, 4]] [0, 1]).1.getD 1 [],
      y = 0 :=
  ⟨rfl, by decide, by decide, by decide,
   C9_padded_output_zero (fun _ => 1) ⟨2, 9 / 10, false, true⟩ rfl Mode.train
     ⟨[0, 0], [1, 1]⟩ ⟨[0, 0], [1, 1]⟩ [[1, 2], [3, 4]] [0, 1] 1
     (by decide) (by decide) (by decide)⟩

/-- C5: when the padding mask is all-zero (every position valid), the mean and
variance returned by `ComputeMomentsWithPadding` equal the unweighted mean and
variance of the input over the reduction slice. -/
theorem C5_all_valid_equals_unweighted (xss : List (List ℚ)) (ps : List ℚ)
    (hlen : ps.length = xss.length) (h0 : ∀ p ∈ ps, p = 0) :
    ComputeMomentsWithPadding xss ps =
      (unweightedMean xss.flatten, unweightedVariance xss.flatten) := by
  by_cases hT : xss.flatten.length = 0
  · have hfl : xss.flatten = [] := List.length_eq_zero.mp hT
    have hs : sumV xss ps = 0 := by
      rw [sumV_eq_weighted, weightedSliceSum_all_valid _ _ _ hlen h0, hfl]
      simp
    have hvv : sumVV xss ps = 0 := by
      rw [sumVV_eq_weighted, weightedSliceSum_all_valid _ _ _ hlen h0, hfl]
      simp
    have hm : meanWithPadding xss ps = 0 := by
      unfold meanWithPadding
      rw [hs, zero_div]
    have hv : varianceWithPadding xss ps = 0 := by
      unfold varianceWithPadding
      rw [hvv, zero_div]
    unfold ComputeMomentsWithPadding
    rw [hm, hv, hfl]
    simp [unweightedMean, unweightedVariance]
  · have hTpos : 0 < xss.flatten.length := Nat.pos_of_ne_zero hT
    have hmlen : ps.length ≠ 0 := by
      intro h
      apply hT
      have hx0 : xss.length = 0 := by rw [← hlen, h]
      rw [List.length_eq_zero.mp hx0]
      rfl
    have hcount : countV xss ps = (xss.flatten.length : ℚ) := by
      unfold countV maskMultiplier maskSize inputSize
      rw [countRaw_all_valid ps h0, ← List.length_flatten]
      have hne : (ps.length : ℚ) ≠ 0 := Nat.cast_ne_zero.mpr hmlen
      field_simp
    have hfc : flooredCount xss ps = (xss.flatten.length : ℚ) := by
      unfold flooredCount
      rw [hcount]
      exact max_eq_left (by exact_mod_cast hTpos)
    have hmean : meanWithPadding xss ps = unweightedMean xss.flatten := by
      unfold meanWithPadding unweightedMean
      rw [hfc, sumV_eq_weighted, weightedSliceSum_all_valid _ _ _ hlen h0,
        List.map_id]
    have hvar : varianceWithPadding xss ps = unweightedVariance xss.flatten := by
      unfold varianceWithPadding unweightedVariance
      rw [hfc, sumVV_eq_weighted, weightedSliceSum_all_valid _ _ _ hlen h0]
      simp only [hmean]
    unfold ComputeMomentsWithPadding
    rw [hmean, hvar]

/-- C5 witness: the spec's scenario — column `[1, 5]`, no padding — gives
mean 3 and variance 4, equal to the unweighted moments. -/
theorem C5_all_valid_equals_unweighted_witness :
    ([(0 : ℚ), 0].length = [[(1 : ℚ)], [5]].length) ∧
    (∀ p ∈ [(0 : ℚ), 0], p = 0) ∧
    ComputeMomentsWithPadding [[(1 : ℚ)], [5]] [0, 0] =
      (unweightedMean [[(1 : ℚ)], [5]].flatten,
       unweightedVariance [[(1 : ℚ)], [5]].flatten) :=
  ⟨by decide, by decide,
   C5_all_valid_equals_unweighted [[(1 : ℚ)], [5]] [0, 0] (by decide) (by decide)⟩

/-- C6: under broadcasting (each mask position covering `r` input elements)
with a 0/1 padding mask, the valid-element count of
`ComputeMomentsWithPadding` is the reduced mask sum times the ratio of input
volume to mask volume, and equals the number of valid input elements of the
slice. -/
theorem C6_broadcast_count (xss : List (List ℚ)) (ps : List ℚ) (r : ℕ)
    (hlen : ps.length = xss.length) (hr : ∀ xs ∈ xss, xs.length = r)
    (hb : ∀ p ∈ ps, p = 0 ∨ p = 1) :
    countV xss ps = countRaw ps * maskMultiplier xss ps ∧
    countV xss ps = (validElementCount xss ps : ℚ) := by
  refine ⟨rfl, ?_⟩
  by_cases hm : ps.length = 0
  · have hps : ps = [] := List.length_eq_zero.mp hm
    have hxs : xss = [] := List.length_eq_zero.mp (by rw [← hlen, hm])
    subst hps
    subst hxs
    simp [countV, countRaw, maskOf, maskMultiplier, validElementCount]
  · have hmul : maskMultiplier xss ps = (r : ℚ) := by
      unfold maskMultiplier maskSize
      rw [inputSize_uniform xss r hr, hlen]
      have hne : ((xss.length : ℕ) : ℚ) ≠ 0 := by
        rw [hlen] at hm
        exact Nat.cast_ne_zero.mpr hm
      push_cast
      field_simp
    show countRaw ps * maskMultiplier xss ps = _
    rw [hmul]
    exact maskSum_mul_eq_validCount ps xss r hlen hr hb

/-- C6 witness: two mask positions each covering two input elements, second
position padded — the count is 2, the number of valid input elements. -/
theorem C6_broadcast_count_witness :
    ([(0 : ℚ), 1].length = [[(1 : ℚ), 2], [3, 4]].length) ∧
    (∀ xs ∈ [[(1 : ℚ), 2], [3, 4]], xs.length = 2) ∧
    (∀ p ∈ [(0 : ℚ), 1], p = 0 ∨ p = 1) ∧
    (countV [[(1 : ℚ), 2], [3, 4]] [0, 1] =
      countRaw [0, 1] * maskMultiplier [[(1 : ℚ), 2], [3, 4]] [0, 1] ∧
     countV [[(1 : ℚ), 2], [3, 4]] [0, 1] =
      (validElementCount [[(1 : ℚ), 2], [3, 4]] [0, 1] : ℚ)) :=
  ⟨by decide, by decide, by decide,
   C6_broadcast_count [[(1 : ℚ), 2], [3, 4]] [0, 1] 2 (by decide) (by decide)
     (by decide)⟩

/-- C10: on a fully padded reduction slice (padding 1, mask weight 0
everywhere), `ComputeMomentsWithPadding` returns mean 0 and variance 0: both
weighted sums are zero and the floored divisor is exactly 1. -/
theorem C10_fully_padded_slice_zero (xss : List (List ℚ)) (ps : List ℚ)
    (h1 : ∀ p ∈ ps, p = 1) :
    sumV xss ps = 0 ∧ sumVV xss ps = 0 ∧ flooredCount xss ps = 1 ∧
    ComputeMomentsWithPadding xss ps = (0, 0) := by
  have hs : sumV xss ps = 0 := by
    rw [sumV_eq_weighted]
    exact weightedSliceSum_all_padded _ _ _ h1
  have hvv : sumVV xss ps = 0 := by
    rw [sumVV_eq_weighted]
    exact weightedSliceSum_all_padded _ _ _ h1
  have hfc : flooredCount xss ps = 1 := by
    unfold flooredCount countV
    rw [countRaw_all_padded ps h1, zero_mul]
    exact max_eq_right zero_le_one
  refine ⟨hs, hvv, hfc, ?_⟩
  unfold ComputeMomentsWithPadding meanWithPadding varianceWithPadding
  rw [hs, hvv, zero_div]

/-- C10 witness: a two-element slice with every position padded yields
`(0, 0)` with floored divisor 1. -/
theorem C10_fully_padded_slice_zero_witness :
    (∀ p ∈ [(1 : ℚ), 1], p = 1) ∧
    (sumV [[(3 : ℚ)], [7]] [1, 1] = 0 ∧ sumVV [[(3 : ℚ)], [7]] [1, 1] = 0 ∧
     flooredCount [[(3 : ℚ)], [7]] [1, 1] = 1 ∧
     ComputeMomentsWithPadding [[(3 : ℚ)], [7]] [1, 1] = (0, 0)) :=
  ⟨by decide, C10_fully_padded_slice_zero [[(3 : ℚ)], [7]] [1, 1] (by decide)⟩

end BnLayers
